import Mathlib

/-!
Verification development for the ai-insights-backend repository.

The embedding covers the Insight Engine (the four stage analyzers in
`app/services/insight_service.py`), the filter/sort/truncate selection policy,
the Progress Broadcast Hub (`app/core/websocket_manager.py`), and the
orchestrator `InsightService.generate_insights_with_progress` modelled as a
straight-line program over explicit failure oracles, producing a linear trace
of persistence and broadcast actions.

Numeric values are modelled over `ℚ` (the Python code computes with IEEE
doubles; every constant and comparison appearing in the verified claims is
exact in `ℚ`).  Presentational text (the `description` field of an insight,
which embeds formatted floating point numbers) is not modelled; all other
fields of the `Insight` value type are.
-/

/-- The `Insight` value type from `app/models/insight.py` (the `description`
field, pure presentational text with formatted floats, is omitted). -/
structure Insight where
  title : String
  confidence : ℚ
  category : String
  affected_columns : List String
  affected_rows : List Nat
deriving DecidableEq, Repr

/-- Default-valued settings from `app/core/config.py` (`Settings`):
`max_insights = 5`, `min_confidence_score = 0.1`. -/
structure Settings where
  max_insights : Nat := 5
  min_confidence_score : ℚ := 0.1

/-- The process-wide settings object returned by `get_settings()` with all
defaults (no `.env` overrides). -/
def settings : Settings := {}

/-! ### Stable insertion sort

Python's `list.sort` is a stable sort.  We model it with insertion sort over a
boolean comparator: `insertBy r x l` places `x` before the first element `y`
of `l` with `r x y = true`.  With `r x y := (y.confidence ≤ x.confidence)`
this reproduces `insights.sort(key=lambda x: x.confidence, reverse=True)`:
an element is inserted before every element whose key does not strictly
exceed its own, i.e. equal keys keep their original relative order. -/

def insertBy (r : α → α → Bool) (x : α) : List α → List α
  | [] => [x]
  | y :: ys => if r x y then x :: y :: ys else y :: insertBy r x ys

def sortBy (r : α → α → Bool) : List α → List α
  | [] => []
  | x :: xs => insertBy r x (sortBy r xs)

theorem insertBy_perm (r : α → α → Bool) (x : α) (l : List α) :
    List.Perm (insertBy r x l) (x :: l) := by
  induction l with
  | nil => simp [insertBy]
  | cons y ys ih =>
    by_cases h : r x y
    · simp [insertBy, h]
    · simp only [insertBy, h, if_neg, Bool.false_eq_true, not_false_iff, ite_false]
      exact (List.Perm.cons y ih).trans (List.Perm.swap x y ys)

theorem sortBy_perm (r : α → α → Bool) (l : List α) :
    List.Perm (sortBy r l) l := by
  induction l with
  | nil => simp [sortBy]
  | cons x xs ih =>
    exact (insertBy_perm r x (sortBy r xs)).trans (List.Perm.cons x ih)

theorem mem_sortBy {r : α → α → Bool} {l : List α} {a : α} :
    a ∈ sortBy r l ↔ a ∈ l :=
  (sortBy_perm r l).mem_iff

theorem pairwise_insertBy {r : α → α → Bool} {x : α} {l : List α}
    (htot : ∀ a b, r a b = false → r b a = true)
    (htrans : ∀ a b c, r a b = true → r b c = true → r a c = true)
    (hl : List.Pairwise (fun a b => r a b = true) l) :
    List.Pairwise (fun a b => r a b = true) (insertBy r x l) := by
  induction l with
  | nil => simp [insertBy]
  | cons y ys ih =>
    rcases hl with _ | ⟨hy, hys⟩
    simp only [insertBy]
    by_cases h : r x y = true
    · simp only [h, if_true]
      refine List.Pairwise.cons ?_ (List.Pairwise.cons hy hys)
      intro b hb
      rcases List.mem_cons.mp hb with hb | hb
      · exact hb ▸ h
      · exact htrans x y b h (hy b hb)
    · simp only [h, if_false]
      refine List.Pairwise.cons ?_ (ih hys)
      intro b hb
      have hb' := (insertBy_perm r x ys).mem_iff.mp hb
      rcases List.mem_cons.mp hb' with hb' | hb'
      · exact hb' ▸ htot x y (Bool.eq_false_iff.mpr h)
      · exact hy b hb'

theorem pairwise_sortBy {r : α → α → Bool} (l : List α)
    (htot : ∀ a b, r a b = false → r b a = true)
    (htrans : ∀ a b c, r a b = true → r b c = true → r a c = true) :
    List.Pairwise (fun a b => r a b = true) (sortBy r l) := by
  induction l with
  | nil => simp [sortBy]
  | cons x xs ih => exact pairwise_insertBy htot htrans ih

theorem insertBy_of_rel_head {r : α → α → Bool} {x : α} {l : List α}
    (h : ∀ b ∈ l.head?, r x b = true) :
    insertBy r x l = x :: l := by
  cases l with
  | nil => rfl
  | cons y ys => simp [insertBy, h y rfl]

/-- Sorting a list that is already pairwise sorted is the identity. -/
theorem sortBy_of_pairwise {r : α → α → Bool} {l : List α}
    (hl : List.Pairwise (fun a b => r a b = true) l) :
    sortBy r l = l := by
  induction l with
  | nil => rfl
  | cons x xs ih =>
    rcases hl with _ | ⟨hx, hxs⟩
    rw [sortBy, ih hxs]
    refine insertBy_of_rel_head ?_
    intro b hb
    exact hx b (List.mem_of_mem_head? hb)

/-! ### The selection policy (filter, stable sort descending, truncate)

From `insight_service.py` lines 123–126:
```
filtered = [i for i in insights if i.confidence >= settings.min_confidence_score]
filtered.sort(key=lambda x: x.confidence, reverse=True)
final_insights = filtered[: settings.max_insights]
```
-/

/-- Comparator realising Python's stable `sort(key=confidence, reverse=True)`:
the inserted element goes in front of every element whose confidence does not
strictly exceed its own. -/
def confDesc (a b : Insight) : Bool := decide (b.confidence ≤ a.confidence)

def selectInsights (insights : List Insight) : List Insight :=
  let filtered := insights.filter (fun i => decide (settings.min_confidence_score ≤ i.confidence))
  (sortBy confDesc filtered).take settings.max_insights

theorem confDesc_total : ∀ a b, confDesc a b = false → confDesc b a = true := by
  intro a b h
  simp only [confDesc, decide_eq_false_iff_not, not_le] at h
  simp only [confDesc, decide_eq_true_eq]
  exact le_of_lt h

theorem confDesc_trans :
    ∀ a b c, confDesc a b = true → confDesc b c = true → confDesc a c = true := by
  intro a b c hab hbc
  simp only [confDesc, decide_eq_true_eq] at *
  exact le_trans hbc hab

/-! ### Stability of the selection policy

To state stability we tag each insight with its emission position (`enum`)
and compare with a sort whose comparator breaks confidence ties by the
original position.  `selectInsightsSpec` is written from the spec's words
("sorted by confidence descending with equal-confidence insights retaining
their original emission order, truncated to the first max_insights"), to be
compared with `selectInsights`, which is written from the source. -/

def confIdxDesc (p q : Nat × Insight) : Bool :=
  decide (q.2.confidence < p.2.confidence ∨
    (p.2.confidence = q.2.confidence ∧ p.1 ≤ q.1))

/-- Reference selection policy written from the spec's words: keep the
insights at or above the threshold, order them by confidence descending and,
for equal confidence, by original emission position ascending, then keep the
first `max_insights`. -/
def selectInsightsSpec (insights : List Insight) : List Insight :=
  let tagged := insights.enum.filter
    (fun p => decide (settings.min_confidence_score ≤ p.2.confidence))
  ((sortBy confIdxDesc tagged).map Prod.snd).take settings.max_insights

theorem confIdxDesc_eq_confDesc {p q : Nat × Insight} (h : p.1 ≤ q.1) :
    confIdxDesc p q = confDesc p.2 q.2 := by
  simp only [confIdxDesc, confDesc, decide_eq_decide]
  constructor
  · rintro (h1 | ⟨h1, _⟩)
    · exact le_of_lt h1
    · exact le_of_eq h1.symm
  · intro h1
    rcases lt_or_eq_of_le h1 with h2 | h2
    · exact Or.inl h2
    · exact Or.inr ⟨h2.symm, h⟩

theorem map_snd_insertBy {p : Nat × Insight} {s : List (Nat × Insight)}
    (h : ∀ q ∈ s, p.1 ≤ q.1) :
    (insertBy confIdxDesc p s).map Prod.snd
      = insertBy confDesc p.2 (s.map Prod.snd) := by
  induction s with
  | nil => rfl
  | cons q qs ih =>
    have hq : confIdxDesc p q = confDesc p.2 q.2 :=
      confIdxDesc_eq_confDesc (h q (List.mem_cons_self q qs))
    by_cases hcase : confDesc p.2 q.2 = true
    · simp [insertBy, hq, hcase]
    · have hcase' : confIdxDesc p q = false := by
        rw [hq]; exact Bool.eq_false_iff.mpr hcase
      simp only [insertBy, hcase', Bool.false_eq_true, if_false, hcase,
        List.map_cons]
      rw [ih (fun r hr => h r (List.mem_cons_of_mem q hr))]

theorem map_snd_sortBy {s : List (Nat × Insight)}
    (hs : List.Pairwise (fun p q => p.1 < q.1) s) :
    (sortBy confIdxDesc s).map Prod.snd = sortBy confDesc (s.map Prod.snd) := by
  induction s with
  | nil => rfl
  | cons p rest ih =>
    rcases hs with _ | ⟨hp, hrest⟩
    have h : ∀ q ∈ sortBy confIdxDesc rest, p.1 ≤ q.1 := by
      intro q hq
      exact le_of_lt (hp q (mem_sortBy.mp hq))
    calc (insertBy confIdxDesc p (sortBy confIdxDesc rest)).map Prod.snd
        = insertBy confDesc p.2 ((sortBy confIdxDesc rest).map Prod.snd) :=
          map_snd_insertBy h
      _ = insertBy confDesc p.2 (sortBy confDesc (rest.map Prod.snd)) := by
          rw [ih hrest]
      _ = sortBy confDesc ((p :: rest).map Prod.snd) := rfl

theorem enum_pairwise_fst (l : List α) :
    List.Pairwise (fun p q : Nat × α => p.1 < q.1) l.enum := by
  rw [List.pairwise_iff_getElem]
  intro i j hi hj hij
  rw [List.getElem_enum, List.getElem_enum]
  exact hij

theorem selectInsights_eq_spec (l : List Insight) :
    selectInsights l = selectInsightsSpec l := by
  have hpw : List.Pairwise (fun p q : Nat × Insight => p.1 < q.1)
      (l.enum.filter (fun p => decide (settings.min_confidence_score ≤ p.2.confidence))) :=
    List.Pairwise.sublist (List.filter_sublist _) (enum_pairwise_fst l)
  have hmap : (l.enum.filter
        (fun p => decide (settings.min_confidence_score ≤ p.2.confidence))).map Prod.snd
      = l.filter (fun i => decide (settings.min_confidence_score ≤ i.confidence)) := by
    have h := List.filter_map (p := fun i : Insight =>
      decide (settings.min_confidence_score ≤ i.confidence)) Prod.snd l.enum
    rw [List.enum_map_snd] at h
    exact h.symm
  simp only [selectInsights, selectInsightsSpec]
  rw [map_snd_sortBy hpw, hmap]

theorem selectInsights_pairwiseB (l : List Insight) :
    List.Pairwise (fun a b => confDesc a b = true) (selectInsights l) :=
  List.Pairwise.sublist (List.take_sublist _ _)
    (pairwise_sortBy _ confDesc_total confDesc_trans)

theorem selectInsights_conf_ge (l : List Insight) :
    ∀ x ∈ selectInsights l, settings.min_confidence_score ≤ x.confidence := by
  intro x hx
  have hx' : x ∈ l.filter (fun i => decide (settings.min_confidence_score ≤ i.confidence)) :=
    mem_sortBy.mp (List.mem_of_mem_take hx)
  have := List.of_mem_filter hx'
  simpa using this

theorem selectInsights_length_le (l : List Insight) :
    (selectInsights l).length ≤ settings.max_insights :=
  List.length_take_le _ _

/-- C4: the final selection equals the spec's pipeline — drop insights whose
confidence is strictly below the configured threshold, stable-sort the rest
by confidence descending (equal confidence keeps emission order), and keep
the first `max_insights`.  Consequently the result is ordered by
non-increasing confidence (so a surviving pair with strictly greater
confidence appears first), every survivor meets the threshold, and at most
`max_insights` survive. -/
theorem c4_filter_sort_truncate (l : List Insight) :
    selectInsights l = selectInsightsSpec l
    ∧ List.Pairwise (fun a b => b.confidence ≤ a.confidence) (selectInsights l)
    ∧ (∀ x ∈ selectInsights l, settings.min_confidence_score ≤ x.confidence)
    ∧ (selectInsights l).length ≤ settings.max_insights := by
  refine ⟨selectInsights_eq_spec l, ?_, selectInsights_conf_ge l,
    selectInsights_length_le l⟩
  have h := selectInsights_pairwiseB l
  have h2 : ∀ {a b : Insight}, confDesc a b = true → b.confidence ≤ a.confidence := by
    intro a b hab
    simpa [confDesc] using hab
  exact h.imp h2

/-- C7: the filter → stable sort descending → truncate pipeline is
idempotent: applying it twice yields exactly the sequence obtained by
applying it once. -/
theorem c7_selection_idempotent (l : List Insight) :
    selectInsights (selectInsights l) = selectInsights l := by
  have hfilter : (selectInsights l).filter
      (fun i => decide (settings.min_confidence_score ≤ i.confidence))
      = selectInsights l :=
    List.filter_eq_self.mpr (fun a ha => by simpa using selectInsights_conf_ge l a ha)
  calc selectInsights (selectInsights l)
      = (sortBy confDesc ((selectInsights l).filter
          (fun i => decide (settings.min_confidence_score ≤ i.confidence)))).take
            settings.max_insights := rfl
    _ = (sortBy confDesc (selectInsights l)).take settings.max_insights := by
        rw [hfilter]
    _ = (selectInsights l).take settings.max_insights := by
        rw [sortBy_of_pairwise (selectInsights_pairwiseB l)]
    _ = selectInsights l := List.take_of_length_le (selectInsights_length_le l)

/-! ### Dataset model

A pandas dataframe is modelled as a list of named columns of cells.  A cell
is missing (`NaN`/`None`), numeric, or textual; `isNumeric` records the
column dtype classification used by `select_dtypes(include=[np.number])`
(in a numeric dtype column every present cell is numeric). -/

abbrev Cell := Option (ℚ ⊕ String)

structure DFColumn where
  name : String
  isNumeric : Bool
  cells : List Cell
deriving DecidableEq, Repr

structure DataFrame where
  cols : List DFColumn
  nrows : Nat
deriving DecidableEq, Repr

/-- Names of the numeric-dtype columns, in column order
(`df.select_dtypes(include=[np.number]).columns`). -/
def numericNames (df : DataFrame) : List String :=
  (df.cols.filter (·.isNumeric)).map (·.name)

/-- `series.dropna()` for a numeric column: the present numeric values
paired with their original row index. -/
def dropnaIndexed (cells : List Cell) : List (Nat × ℚ) :=
  cells.enum.filterMap (fun p =>
    match p.2 with
    | some (Sum.inl q) => some (p.1, q)
    | _ => none)

def listMean (s : List ℚ) : ℚ := s.sum / s.length

/-- ddof=1 sample variance, the square of `series.std()`. -/
def listVar (s : List ℚ) : ℚ :=
  ((s.map (fun x => (x - listMean s) ^ 2)).sum) / ((s.length : ℚ) - 1)

/-- The test `series.std() > series.mean() * 0.5` from the statistical stage.
`std` is the nonnegative square root of the ddof=1 sample variance, so the
comparison is equivalent over the rationals to
`mean*0.5 < 0 ∨ (mean*0.5)² < var`, which avoids the irrational square root.
For a singleton series pandas yields `std = NaN` and the comparison is
false. -/
def stdExceedsHalfMean (s : List ℚ) : Bool :=
  if s.length ≤ 1 then false
  else decide (listMean s * 0.5 < 0 ∨ (listMean s * 0.5) ^ 2 < listVar s)

/-- `series.quantile(p)` with pandas' default linear interpolation: sort
ascending, take position `p*(n-1)`, interpolate between the two neighbouring
order statistics. -/
def quantileLinear (s : List ℚ) (p : ℚ) : ℚ :=
  let sorted := sortBy (fun a b => decide (a ≤ b)) s
  let n := sorted.length
  if n = 0 then 0
  else
    let pos : ℚ := p * ((n : ℚ) - 1)
    let i : Nat := Int.toNat ⌊pos⌋
    let lo := sorted.getD i 0
    let hi := sorted.getD (min (i + 1) (n - 1)) lo
    lo + (pos - (i : ℚ)) * (hi - lo)

/-! ### The four stage analyzers (`InsightService._generate_*_insights`) -/

/-- `_generate_overview_insights`: one overview insight with fixed
confidence 0.95 covering every column. -/
def generate_overview_insights (df : DataFrame) : List Insight :=
  [{ title := "Dataset Overview", confidence := 0.95, category := "overview",
     affected_columns := df.cols.map (·.name), affected_rows := [] }]

/-- `_generate_statistical_insights`: per numeric column with at least one
present value, a `statistical` insight (confidence 0.8) when the sample std
exceeds half the mean, and an `anomaly` insight (confidence 0.75) listing up
to 10 row indices when IQR outliers exist. -/
def generate_statistical_insights (df : DataFrame) : List Insight :=
  (df.cols.filter (·.isNumeric)).flatMap (fun col =>
    let series := dropnaIndexed col.cells
    if series.isEmpty then []
    else
      let vals := series.map Prod.snd
      let varInsights : List Insight :=
        if stdExceedsHalfMean vals then
          [{ title := "High Variability in " ++ col.name, confidence := 0.8,
             category := "statistical", affected_columns := [col.name],
             affected_rows := [] }]
        else []
      let q1 := quantileLinear vals 0.25
      let q3 := quantileLinear vals 0.75
      let iqr := q3 - q1
      let outliers := series.filter (fun p =>
        decide (p.2 < q1 - 1.5 * iqr ∨ q3 + 1.5 * iqr < p.2))
      let outInsights : List Insight :=
        if outliers.isEmpty then []
        else
          [{ title := "Outliers Detected in " ++ col.name, confidence := 0.75,
             category := "anomaly", affected_columns := [col.name],
             affected_rows := (outliers.map Prod.fst).take 10 }]
      varInsights ++ outInsights)

/-- The insight built for a correlated pair at numeric-column positions
`p = (i, j)` (body of the inner loop of `_generate_pattern_insights`). -/
def mkPatternInsight (names : List String) (corrM : Nat → Nat → ℚ)
    (p : Nat × Nat) : Insight :=
  let val := corrM p.1 p.2
  let rel := if decide (0 < val) then "Positive" else "Negative"
  { title := "Strong " ++ rel ++ " Correlation",
    confidence := min 0.9 |val|, category := "pattern",
    affected_columns := [names.getD p.1 "", names.getD p.2 ""],
    affected_rows := [] }

/-- `_generate_pattern_insights`.  The pairwise Pearson matrix
`df[numeric].corr()` is produced by pandas (an external library); it enters
the model as the function `corrM` giving the matrix entry at numeric-column
positions `(i, j)`.  The stage iterates over ordered position pairs
`i < j` and keeps those whose entry exceeds 0.7 in absolute value. -/
def generate_pattern_insights (df : DataFrame) (corrM : Nat → Nat → ℚ) :
    List Insight :=
  let numeric := numericNames df
  if numeric.length > 1 then
    (List.range numeric.length).flatMap (fun i =>
      ((List.range numeric.length).drop (i + 1)).filterMap (fun j =>
        if decide ((0.7 : ℚ) < |corrM i j|) then
          some (mkPatternInsight numeric corrM (i, j))
        else none))
  else []

/-- Count of missing cells in a column (`df.isnull().sum()` for it). -/
def countMissing (cells : List Cell) : Nat := cells.countP (fun c => c.isNone)

/-- The row at index `i` across all columns. -/
def rowAt (df : DataFrame) (i : Nat) : List Cell :=
  df.cols.map (fun c => c.cells.getD i none)

/-- `df.duplicated().sum()`: rows identical to some earlier row (pandas
treats missing values as equal for duplicate detection). -/
def duplicatedCount (df : DataFrame) : Nat :=
  ((List.range df.nrows).filter (fun i =>
    (List.range i).any (fun j => decide (rowAt df j = rowAt df i)))).length

/-- `_generate_quality_insights`: a `data_quality` insight (confidence 0.9)
per column with missing values exceeding 10% of the rows, plus one
`data_quality` insight (confidence 0.95) when duplicate rows exist. -/
def generate_quality_insights (df : DataFrame) : List Insight :=
  let total := df.nrows
  let missingInsights := df.cols.filterMap (fun col =>
    let cnt := countMissing col.cells
    let pct := ((cnt : ℚ) / (total : ℚ)) * 100
    if decide (0 < cnt ∧ 10 < pct) then
      some { title := "Missing Data in " ++ col.name, confidence := 0.9,
             category := "data_quality", affected_columns := [col.name],
             affected_rows := [] }
    else none)
  let dupes := duplicatedCount df
  let dupInsights : List Insight :=
    if 0 < dupes then
      [{ title := "Duplicate Rows Detected", confidence := 0.95,
         category := "data_quality", affected_columns := df.cols.map (·.name),
         affected_rows := [] }]
    else []
  missingInsights ++ dupInsights

/-- All stage outputs concatenated in orchestrator order
(overview, statistical, pattern, quality). -/
def allStageInsights (df : DataFrame) (corrM : Nat → Nat → ℚ) : List Insight :=
  generate_overview_insights df ++ generate_statistical_insights df
    ++ generate_pattern_insights df corrM ++ generate_quality_insights df

/-! ### Confidence bounds of the stage outputs -/

theorem overview_confidence {df : DataFrame} {i : Insight}
    (hi : i ∈ generate_overview_insights df) : i.confidence = 0.95 := by
  simp only [generate_overview_insights, List.mem_singleton] at hi
  rw [hi]

theorem statistical_confidence {df : DataFrame} {i : Insight}
    (hi : i ∈ generate_statistical_insights df) :
    i.confidence = 0.8 ∨ i.confidence = 0.75 := by
  simp only [generate_statistical_insights, List.mem_flatMap] at hi
  obtain ⟨col, _, hi⟩ := hi
  split at hi
  · simp at hi
  · rw [List.mem_append] at hi
    rcases hi with hi | hi
    · split at hi
      · left
        simp only [List.mem_singleton] at hi
        rw [hi]
      · simp at hi
    · split at hi
      · simp at hi
      · right
        simp only [List.mem_singleton] at hi
        rw [hi]

theorem pattern_confidence {df : DataFrame} {corrM : Nat → Nat → ℚ}
    {i : Insight} (hi : i ∈ generate_pattern_insights df corrM) :
    (0.7 : ℚ) < i.confidence ∧ i.confidence ≤ 0.9 := by
  simp only [generate_pattern_insights] at hi
  split at hi
  · simp only [List.mem_flatMap] at hi
    obtain ⟨a, _, hi⟩ := hi
    simp only [List.mem_filterMap] at hi
    obtain ⟨j, _, hj⟩ := hi
    split at hj
    case isTrue h =>
      have hval := of_decide_eq_true h
      have hcf : i.confidence = min 0.9 |corrM a j| := by
        rw [← Option.some.inj hj]
        rfl
      constructor
      · rw [hcf]
        exact lt_min (by norm_num) hval
      · rw [hcf]
        exact min_le_left _ _
    case isFalse => simp at hj
  · simp at hi

theorem quality_confidence {df : DataFrame} {i : Insight}
    (hi : i ∈ generate_quality_insights df) :
    i.confidence = 0.9 ∨ i.confidence = 0.95 := by
  simp only [generate_quality_insights, List.mem_append] at hi
  rcases hi with hi | hi
  · simp only [List.mem_filterMap] at hi
    obtain ⟨col, _, hcol⟩ := hi
    split at hcol
    · left
      rw [← Option.some.inj hcol]
    · simp at hcol
  · split at hi
    · right
      simp only [List.mem_singleton] at hi
      rw [hi]
    · simp at hi

/-- C10: every insight produced by any of the four stage analyzers has
confidence strictly greater than 0.7 (the fixed constants 0.75, 0.8, 0.9,
0.95, and the pattern confidences in the interval (0.7, 0.9]); hence under
the default configuration `min_confidence_score = 0.1` the filtering step
never removes any insight. -/
theorem c10_confidence_floor (df : DataFrame) (corrM : Nat → Nat → ℚ) :
    (∀ i ∈ allStageInsights df corrM,
        (0.7 : ℚ) < i.confidence ∧ settings.min_confidence_score ≤ i.confidence)
    ∧ (allStageInsights df corrM).filter
        (fun i => decide (settings.min_confidence_score ≤ i.confidence))
      = allStageInsights df corrM := by
  have hall : ∀ i ∈ allStageInsights df corrM, (0.7 : ℚ) < i.confidence := by
    intro i hi
    simp only [allStageInsights, List.mem_append] at hi
    rcases hi with ((hi | hi) | hi) | hi
    · rw [overview_confidence hi]; norm_num
    · rcases statistical_confidence hi with h | h <;> rw [h] <;> norm_num
    · exact (pattern_confidence hi).1
    · rcases quality_confidence hi with h | h <;> rw [h] <;> norm_num
  have hmin : ∀ i ∈ allStageInsights df corrM,
      settings.min_confidence_score ≤ i.confidence := by
    intro i hi
    have h := hall i hi
    have h01 : settings.min_confidence_score = 0.1 := rfl
    rw [h01]
    linarith
  refine ⟨fun i hi => ⟨hall i hi, hmin i hi⟩, List.filter_eq_self.mpr ?_⟩
  intro a ha
  exact decide_eq_true (hmin a ha)

/-- Witness for C10 at the empty dataframe: the single overview insight it
yields clears both bounds. -/
theorem c10_confidence_floor_witness :
    (0.7 : ℚ) < (Insight.mk "Dataset Overview" 0.95 "overview"
        (List.map DFColumn.name []) []).confidence
    ∧ settings.min_confidence_score ≤ (Insight.mk "Dataset Overview" 0.95
        "overview" (List.map DFColumn.name []) []).confidence :=
  (c10_confidence_floor ⟨[], 0⟩ (fun _ _ => 0)).1 _ (List.Mem.head _)

/-! ### Characterisation of the pattern stage -/

theorem filter_flatMap (l : List α) (f : α → List β) (p : β → Bool) :
    (l.flatMap f).filter p = l.flatMap (fun a => (f a).filter p) := by
  induction l with
  | nil => rfl
  | cons a l ih => simp [List.flatMap_cons, List.filter_append, ih]

theorem filterMap_flatMap (l : List α) (f : α → List β) (g : β → Option γ) :
    (l.flatMap f).filterMap g = l.flatMap (fun a => (f a).filterMap g) := by
  induction l with
  | nil => rfl
  | cons a l ih => simp [List.flatMap_cons, List.filterMap_append, ih]

theorem range_drop_eq_filter (n i : Nat) :
    (List.range n).drop (i + 1) = (List.range n).filter (fun j => decide (i < j)) := by
  induction n with
  | zero => rfl
  | succ n ih =>
    rw [List.range_succ, List.filter_append]
    rcases le_or_lt (i + 1) n with h | h
    · rw [List.drop_append_of_le_length (by simpa [List.length_range] using h), ih]
      congr 1
      simp [Nat.lt_of_succ_le h]
    · have hn : n ≤ i := Nat.lt_succ_iff.mp h
      rw [List.drop_eq_nil_of_le (by simp [List.length_range]; omega)]
      have h1 : (List.range n).filter (fun j => decide (i < j)) = [] :=
        List.filter_eq_nil_iff.mpr (fun a ha => by
          simp only [List.mem_range] at ha
          simp only [decide_eq_true_eq]
          omega)
      have h2 : [n].filter (fun j => decide (i < j)) = [] := by
        simp only [List.filter_cons, List.filter_nil, decide_eq_true_eq]
        rw [if_neg (by omega)]
      rw [h1, h2, List.append_nil]

/-- The unordered column-position pairs `(i, j)` with `i < j` over `n`
columns, in the order the nested loops of `_generate_pattern_insights`
visit them. -/
def pairsLex (n : Nat) : List (Nat × Nat) :=
  ((List.range n).product (List.range n)).filter (fun p => decide (p.1 < p.2))

/-- The pattern stage emits exactly one insight per unordered pair of numeric
columns whose matrix entry exceeds 0.7 in absolute value. -/
theorem pattern_pairsForm (df : DataFrame) (corrM : Nat → Nat → ℚ) :
    generate_pattern_insights df corrM
      = (pairsLex (numericNames df).length).filterMap
          (fun p => if decide ((0.7 : ℚ) < |corrM p.1 p.2|) then
              some (mkPatternInsight (numericNames df) corrM p) else none) := by
  by_cases h : (numericNames df).length > 1
  · simp only [generate_pattern_insights, h, if_true, pairsLex]
    have hprod : (List.range (numericNames df).length).product
          (List.range (numericNames df).length)
        = (List.range (numericNames df).length).flatMap
            (fun i => (List.range (numericNames df).length).map (Prod.mk i)) := rfl
    rw [hprod, filter_flatMap, filterMap_flatMap]
    refine congrArg (List.flatMap (List.range (numericNames df).length))
      (funext fun i => ?_)
    rw [List.filter_map, List.filterMap_map]
    have hcomp : ((fun p : Nat × Nat => decide (p.1 < p.2)) ∘ Prod.mk i)
        = fun j => decide (i < j) := rfl
    rw [hcomp, ← range_drop_eq_filter]
    rfl
  · simp only [generate_pattern_insights, h, if_false]
    have h' : (numericNames df).length = 0 ∨ (numericNames df).length = 1 := by
      omega
    rcases h' with h' | h' <;> rw [h'] <;> rfl

/-! ### The `y = 2x` perfect-correlation scenario -/

def scenarioXs : List ℚ := [1, 2, 3]

def scenarioYs : List ℚ := [2, 4, 6]

/-- The spec scenario dataset: two numeric columns with `y = 2x`. -/
def scenarioDF : DataFrame :=
  { cols := [⟨"x", true, scenarioXs.map (fun v => some (Sum.inl v))⟩,
             ⟨"y", true, scenarioYs.map (fun v => some (Sum.inl v))⟩],
    nrows := 3 }

/-- Sum of squared deviations from the mean. -/
def varSumQ (xs : List ℚ) : ℚ := (xs.map (fun x => (x - listMean xs) ^ 2)).sum

/-- Sum of products of deviations from the means. -/
def covSumQ (xs ys : List ℚ) : ℚ :=
  ((xs.zip ys).map (fun p => (p.1 - listMean xs) * (p.2 - listMean ys))).sum

/-- `q` is the Pearson correlation coefficient of `xs` and `ys`,
characterised without square roots: `q·Σdxdy ≥ 0` fixes the sign and
`q²·Σdx²·Σdy² = (Σdxdy)²` fixes the magnitude.  This is the contract the
external `DataFrame.corr()` collaborator satisfies. -/
def IsPearson (xs ys : List ℚ) (q : ℚ) : Prop :=
  q ^ 2 * (varSumQ xs * varSumQ ys) = covSumQ xs ys ^ 2
    ∧ 0 ≤ q * covSumQ xs ys

theorem scenario_pearson_eq_one {q : ℚ}
    (hq : IsPearson scenarioXs scenarioYs q) : q = 1 := by
  obtain ⟨hmag, hsign⟩ := hq
  have hvx : varSumQ scenarioXs = 2 := by
    norm_num [varSumQ, scenarioXs, listMean]
  have hvy : varSumQ scenarioYs = 8 := by
    norm_num [varSumQ, scenarioYs, listMean]
  have hcov : covSumQ scenarioXs scenarioYs = 4 := by
    norm_num [covSumQ, scenarioXs, scenarioYs, listMean, List.zip]
  rw [hvx, hvy, hcov] at hmag
  rw [hcov] at hsign
  have hq2 : q ^ 2 = 1 := by linarith
  have hfact : (q - 1) * (q + 1) = 0 := by linear_combination hq2
  rcases mul_eq_zero.mp hfact with h | h
  · linarith
  · linarith

theorem scenario_pattern (q : ℚ) (corrM : Nat → Nat → ℚ)
    (hq : IsPearson scenarioXs scenarioYs q) (hc : corrM 0 1 = q) :
    generate_pattern_insights scenarioDF corrM
      = [{ title := "Strong Positive Correlation", confidence := 0.9,
           category := "pattern", affected_columns := ["x", "y"],
           affected_rows := [] }] := by
  have h1 : q = 1 := scenario_pearson_eq_one hq
  subst h1
  rw [pattern_pairsForm]
  have hpairs : pairsLex (numericNames scenarioDF).length = [(0, 1)] := rfl
  rw [hpairs]
  simp only [List.filterMap, hc, mkPatternInsight, numericNames, scenarioDF]
  norm_num
  rfl

theorem pattern_lt_two (df : DataFrame) (corrM : Nat → Nat → ℚ)
    (h : (numericNames df).length ≤ 1) :
    generate_pattern_insights df corrM = [] := by
  simp only [generate_pattern_insights]
  rw [if_neg (by omega)]

/-- C8: with fewer than two numeric columns the pattern stage emits nothing;
otherwise it emits exactly one `pattern` insight per unordered pair of
numeric columns whose Pearson matrix entry exceeds 0.7 in absolute value,
with confidence `min 0.9 |corr|` and the two column names as
`affected_columns`; and in the `y = 2x` scenario (a Pearson coefficient of
magnitude 1) the stage emits one pattern insight with confidence exactly
0.9. -/
theorem c8_pattern_stage :
    (∀ (df : DataFrame) (corrM : Nat → Nat → ℚ),
        (numericNames df).length ≤ 1 → generate_pattern_insights df corrM = [])
    ∧ (∀ (df : DataFrame) (corrM : Nat → Nat → ℚ),
        generate_pattern_insights df corrM
          = (pairsLex (numericNames df).length).filterMap
              (fun p => if decide ((0.7 : ℚ) < |corrM p.1 p.2|) then
                  some (mkPatternInsight (numericNames df) corrM p) else none))
    ∧ (∀ (q : ℚ) (corrM : Nat → Nat → ℚ),
        IsPearson scenarioXs scenarioYs q → corrM 0 1 = q →
        generate_pattern_insights scenarioDF corrM
          = [{ title := "Strong Positive Correlation", confidence := 0.9,
               category := "pattern", affected_columns := ["x", "y"],
               affected_rows := [] }]) :=
  ⟨fun df corrM h => pattern_lt_two df corrM h,
   fun df corrM => pattern_pairsForm df corrM,
   fun q corrM hq hc => scenario_pattern q corrM hq hc⟩

/-- Witness for C8: a one-numeric-column frame yields no pattern insight,
and the concrete `y = 2x` frame with its Pearson matrix entry 1 yields the
single clamped-confidence insight. -/
theorem c8_pattern_stage_witness :
    generate_pattern_insights ⟨[⟨"a", true, []⟩], 0⟩ (fun _ _ => 0) = []
    ∧ generate_pattern_insights scenarioDF (fun _ _ => 1)
        = [{ title := "Strong Positive Correlation", confidence := 0.9,
             category := "pattern", affected_columns := ["x", "y"],
             affected_rows := [] }] :=
  ⟨c8_pattern_stage.1 ⟨[⟨"a", true, []⟩], 0⟩ (fun _ _ => 0) (by decide),
   c8_pattern_stage.2.2 1 (fun _ _ => 1)
     ⟨by norm_num [varSumQ, covSumQ, scenarioXs, scenarioYs, listMean, List.zip],
      by norm_num [covSumQ, scenarioXs, scenarioYs, listMean, List.zip]⟩ rfl⟩

/-! ### The Progress Broadcast Hub (`app/core/websocket_manager.py`)

`ConnectionManager.active_connections : Dict[str, Set[WebSocket]]` is
modelled as an association list from file id to the list of registered
subscriber handles (handles are opaque naturals; list membership models set
membership).  The transport collaborator `websocket.send_text` either
succeeds or raises; the set `dead` of failing handles captures which. -/

abbrev Registry := List (String × List Nat)

/-- The `websocket.send_text` collaborator: raises for a dead connection. -/
def sendText (dead : List Nat) (ws : Nat) : Except String Unit :=
  if ws ∈ dead then Except.error "connection closed" else Except.ok ()

/-- The registry mutation inside `ConnectionManager.connect`: create the
subject entry if absent, then add the handle to its set. -/
def addConnection : Registry → String → Nat → Registry
  | [], fid, ws => [(fid, [ws])]
  | (f, s) :: rest, fid, ws =>
      if f = fid then (f, if ws ∈ s then s else s ++ [ws]) :: rest
      else (f, s) :: addConnection rest fid ws

/-- `ConnectionManager.send_personal_message`: try to deliver, swallow any
failure (it is only logged); the registry is not touched. -/
def send_personal_message (dead : List Nat) (reg : Registry) (ws : Nat) :
    Registry × Except String Unit :=
  match sendText dead ws with
  | Except.ok _ => (reg, Except.ok ())
  | Except.error _ => (reg, Except.ok ())

/-- `ConnectionManager.connect`: register the handle, then send the
connection-established acknowledgement via `send_personal_message`. -/
def connect (dead : List Nat) (reg : Registry) (fid : String) (ws : Nat) :
    Registry × Except String Unit :=
  send_personal_message dead (addConnection reg fid ws) ws

/-- `ConnectionManager.disconnect`: discard the handle; delete the subject
entry if its set became empty. -/
def disconnect : Registry → String → Nat → Registry
  | [], _, _ => []
  | (f, s) :: rest, fid, ws =>
      if f = fid then
        let s2 := s.filter (fun w => decide (w ≠ ws))
        if s2.isEmpty then rest else (f, s2) :: rest
      else (f, s) :: disconnect rest fid ws

/-- `ConnectionManager.broadcast_to_file`: deliver to every handle of the
subject (failures are isolated per handle); handles whose delivery failed
are then discarded from the subject's set — but an entry emptied this way
is not deleted. -/
def broadcast_to_file (dead : List Nat) : Registry → String → Registry
  | [], _ => []
  | (f, s) :: rest, fid =>
      if f = fid then (f, s.filter (fun w => decide (w ∉ dead))) :: rest
      else (f, s) :: broadcast_to_file dead rest fid

/-- The subscriber-registry invariant of the spec: every registered subject
id maps to a non-empty subscriber set. -/
def RegistryInv (reg : Registry) : Prop := ∀ p ∈ reg, p.2 ≠ []

instance (reg : Registry) : Decidable (RegistryInv reg) :=
  inferInstanceAs (Decidable (∀ p ∈ reg, p.2 ≠ []))

theorem addConnection_inv {reg : Registry} {fid : String} {ws : Nat}
    (h : RegistryInv reg) : RegistryInv (addConnection reg fid ws) := by
  induction reg with
  | nil =>
    intro p hp
    simp only [addConnection, List.mem_singleton] at hp
    simp [hp]
  | cons q rest ih =>
    obtain ⟨f, s⟩ := q
    intro p hp
    by_cases hf : f = fid
    · simp only [addConnection, hf, if_true] at hp
      rcases List.mem_cons.mp hp with hp | hp
      · subst hp
        by_cases hws : ws ∈ s
        · simpa [hws] using h (f, s) (List.mem_cons_self _ _)
        · simp [hws]
      · exact h p (List.mem_cons_of_mem _ hp)
    · simp only [addConnection, hf, if_false] at hp
      rcases List.mem_cons.mp hp with hp | hp
      · subst hp
        exact h (f, s) (List.mem_cons_self _ _)
      · exact ih (fun r hr => h r (List.mem_cons_of_mem _ hr)) p hp

theorem send_personal_message_fst (dead : List Nat) (reg : Registry) (ws : Nat) :
    send_personal_message dead reg ws = (reg, Except.ok ()) := by
  rw [send_personal_message]
  cases sendText dead ws <;> rfl

theorem disconnect_inv {reg : Registry} {fid : String} {ws : Nat}
    (h : RegistryInv reg) : RegistryInv (disconnect reg fid ws) := by
  induction reg with
  | nil => intro p hp; simp [disconnect] at hp
  | cons q rest ih =>
    obtain ⟨f, s⟩ := q
    intro p hp
    by_cases hf : f = fid
    · simp only [disconnect, hf, if_true] at hp
      by_cases hempty : (s.filter (fun w => decide (w ≠ ws))).isEmpty
      · rw [if_pos hempty] at hp
        exact h p (List.mem_cons_of_mem _ hp)
      · rw [if_neg hempty] at hp
        rcases List.mem_cons.mp hp with hp | hp
        · subst hp
          simpa [List.isEmpty_iff] using hempty
        · exact h p (List.mem_cons_of_mem _ hp)
    · simp only [disconnect, hf, if_false] at hp
      rcases List.mem_cons.mp hp with hp | hp
      · subst hp
        exact h (f, s) (List.mem_cons_self _ _)
      · exact ih (fun r hr => h r (List.mem_cons_of_mem _ hr)) p hp

theorem broadcast_keys (dead : List Nat) (reg : Registry) (fid : String) :
    (broadcast_to_file dead reg fid).map Prod.fst = reg.map Prod.fst := by
  induction reg with
  | nil => rfl
  | cons q rest ih =>
    obtain ⟨f, s⟩ := q
    by_cases hf : f = fid
    · simp [broadcast_to_file, hf]
    · simp [broadcast_to_file, hf, ih]

/-- C6 (amended): `connect` and `disconnect` preserve the non-empty
invariant, and fan-out delivery never deletes a subject entry (its key set
is unchanged) — so an entry whose subscribers all fail during a broadcast
survives with an empty set (see the counterexample). -/
theorem c6_registry_invariant :
    (∀ (dead : List Nat) (reg : Registry) (fid : String) (ws : Nat),
        RegistryInv reg → RegistryInv (connect dead reg fid ws).1)
    ∧ (∀ (reg : Registry) (fid : String) (ws : Nat),
        RegistryInv reg → RegistryInv (disconnect reg fid ws))
    ∧ (∀ (dead : List Nat) (reg : Registry) (fid : String),
        (broadcast_to_file dead reg fid).map Prod.fst = reg.map Prod.fst) := by
  refine ⟨fun dead reg fid ws h => ?_, fun reg fid ws h => disconnect_inv h,
    fun dead reg fid => broadcast_keys dead reg fid⟩
  rw [connect, send_personal_message_fst]
  exact addConnection_inv h

/-- Witness for C6 at concrete registries. -/
theorem c6_registry_invariant_witness :
    RegistryInv (connect [] [] "f" 0).1
    ∧ RegistryInv (disconnect [("f", [0, 1])] "f" 0)
    ∧ (broadcast_to_file [0] [("f", [0])] "f").map Prod.fst
        = ([("f", [0])] : Registry).map Prod.fst :=
  ⟨c6_registry_invariant.1 [] [] "f" 0 (by decide),
   c6_registry_invariant.2.1 [("f", [0, 1])] "f" 0 (by decide),
   c6_registry_invariant.2.2 [0] [("f", [0])] "f"⟩

/-- Counterexample for C6 as stated: a broadcast in which the subject's only
subscriber fails leaves the subject mapped to an empty set, violating the
claimed invariant preservation by fan-out delivery. -/
theorem c6_registry_invariant_counterexample :
    RegistryInv [("f", [0])]
    ∧ ¬ RegistryInv (broadcast_to_file [0] [("f", [0])] "f") := by
  constructor
  · decide
  · decide

/-- C9: point-to-point delivery (`send_personal_message`) swallows every
delivery failure — it never errors and leaves the registry untouched —
unlike fan-out delivery, which does remove failing handles; consequently
`connect` always succeeds with the handle registered, whether or not the
acknowledgement could be delivered. -/
theorem c9_personal_send_swallows :
    (∀ (dead : List Nat) (reg : Registry) (ws : Nat),
        send_personal_message dead reg ws = (reg, Except.ok ()))
    ∧ (∀ (dead : List Nat) (reg : Registry) (fid : String) (ws : Nat),
        connect dead reg fid ws = (addConnection reg fid ws, Except.ok ()))
    ∧ broadcast_to_file [0] [("f", [0, 1])] "f" = [("f", [1])] := by
  refine ⟨send_personal_message_fst, fun dead reg fid ws => ?_, by decide⟩
  rw [connect, send_personal_message_fst]

/-! ### The orchestrator (`InsightService.generate_insights_with_progress`)

The run is a straight-line async function whose externally visible effects
are Hub broadcasts and database commits; we model it as a function from an
environment of collaborator oracles to a linear trace of actions plus the
resulting persisted record state and return value.  The collaborators that
can raise — `parse_file`, the four stage bodies (pandas internals), and
`db.commit()` — are modelled by `Option String` oracles carrying the
exception text (`none` = succeeds).  SQLAlchemy semantics: a failed
`commit()` leaves the session pending-rollback, so the best-effort commit in
the `except` block then raises `PendingRollbackError` without flushing; a
commit that succeeds flushes every dirty attribute of the record object
atomically. -/

/-- The persisted `FileRecord` columns the run touches. -/
structure RecordState where
  processing_status : String
  insights : Option (List Insight)
deriving DecidableEq, Repr

/-- The Hub event payloads the run emits (fields the claims mention). -/
inductive Event
  | statusUpdate (status : String) (message : String) (progress : ℚ)
  | insightProgress (currentStep : String) (totalSteps : Nat)
      (currentStepNum : Nat) (insightsFound : Nat)
  | insightsComplete (insightsCount : Nat)
deriving DecidableEq, Repr

/-- One observable action: a broadcast handed to the Hub, or a `db.commit()`
attempt flushing the session's record object (`ok` records whether the
write reached the database). -/
inductive RunAction
  | broadcast (e : Event)
  | commit (r : RecordState) (ok : Bool)
deriving DecidableEq, Repr

/-- Collaborator oracles for one run. -/
structure RunEnv where
  record : Option RecordState
  df : DataFrame
  corrM : Nat → Nat → ℚ
  parseErr : Option String
  overviewErr : Option String
  statErr : Option String
  patternErr : Option String
  qualityErr : Option String
  commitErr : Option String
  failCommitFails : Bool

structure RunResult where
  trace : List RunAction
  db : Option RecordState
  ret : List Insight

/-- The `except Exception` block of the run: set
`processing_status = "failed"` on the session's record object, commit
best-effort (a second failure is swallowed by the bare `except: pass`),
then broadcast the failure and return `[]`.  `rec0` is the record as
persisted before the run, `recSession` the session's (possibly dirty)
record object at the moment the exception was caught; `poisoned` is true
when the caught exception was itself a commit failure, in which case the
best-effort commit cannot flush. -/
def failTail (env : RunEnv) (rec0 recSession : RecordState) (t : List RunAction)
    (cause : String) (poisoned : Bool) : RunResult :=
  let recF := { recSession with processing_status := "failed" }
  let ok := !poisoned && !env.failCommitFails
  { trace := t ++ [RunAction.commit recF ok,
      RunAction.broadcast (Event.statusUpdate "failed"
        ("Analysis failed: " ++ cause) 0)],
    db := if ok then some recF else some rec0,
    ret := [] }

/-- `InsightService.generate_insights_with_progress`, step for step: the
missing-record early return, the six progress events (step 3 is emitted
twice: once before and once after the overview stage), the four stages,
the selection pipeline, the single success commit of insights plus status
`"completed"`, the completion broadcast, and the exception handler. -/
def generate_insights_with_progress (env : RunEnv) : RunResult :=
  match env.record with
  | none =>
      { trace := [RunAction.broadcast (Event.statusUpdate "failed"
          "File not found; aborting insights" 0)],
        db := none, ret := [] }
  | some rec0 =>
      let t1 := [RunAction.broadcast (Event.statusUpdate "processing"
                   "Starting analysis..." 0),
                 RunAction.broadcast (Event.insightProgress "Parsing dataset" 6 1 0)]
      match env.parseErr with
      | some e => failTail env rec0 rec0 t1 e false
      | none =>
      let df := env.df
      let t2 := t1 ++ [RunAction.broadcast
        (Event.insightProgress "Validating data structure" 6 2 0)]
      let t3 := t2 ++ [RunAction.broadcast
        (Event.insightProgress "Analyzing dataset overview" 6 3 0)]
      match env.overviewErr with
      | some e => failTail env rec0 rec0 t3 e false
      | none =>
      let ins1 := generate_overview_insights df
      let t4 := t3 ++ [RunAction.broadcast
        (Event.insightProgress "Analyzing dataset overview" 6 3 ins1.length)]
      let t5 := t4 ++ [RunAction.broadcast
        (Event.insightProgress "Performing statistical analysis" 6 4 ins1.length)]
      match env.statErr with
      | some e => failTail env rec0 rec0 t5 e false
      | none =>
      let ins2 := ins1 ++ generate_statistical_insights df
      let t6 := t5 ++ [RunAction.broadcast
        (Event.insightProgress "Detecting patterns and correlations" 6 5 ins2.length)]
      match env.patternErr with
      | some e => failTail env rec0 rec0 t6 e false
      | none =>
      let ins3 := ins2 ++ generate_pattern_insights df env.corrM
      let t7 := t6 ++ [RunAction.broadcast
        (Event.insightProgress "Evaluating data quality" 6 6 ins3.length)]
      match env.qualityErr with
      | some e => failTail env rec0 rec0 t7 e false
      | none =>
      let insights := ins3 ++ generate_quality_insights df
      let final := selectInsights insights
      let recC : RecordState := ⟨"completed", some final⟩
      match env.commitErr with
      | some e => failTail env rec0 recC (t7 ++ [RunAction.commit recC false]) e true
      | none =>
          { trace := t7 ++ [RunAction.commit recC true,
              RunAction.broadcast (Event.insightsComplete final.length)],
            db := some recC, ret := final }

/-- The `(current_step_num, total_steps)` pairs of the `insight_progress`
events of a trace, in emission order. -/
def progressSteps (t : List RunAction) : List (Nat × Nat) :=
  t.filterMap (fun a =>
    match a with
    | RunAction.broadcast (Event.insightProgress _ ts num _) => some (num, ts)
    | _ => none)

/-- The terminal-status (`completed`/`failed`) commits of a trace that
actually reached the database. -/
def terminalWrites (t : List RunAction) : List RecordState :=
  t.filterMap (fun a =>
    match a with
    | RunAction.commit r true =>
        if r.processing_status = "completed" ∨ r.processing_status = "failed"
        then some r else none
    | _ => none)

/-- The first failure the run hits, in control-flow order. -/
def failureCause (env : RunEnv) : Option String :=
  match env.parseErr with
  | some e => some e
  | none =>
  match env.overviewErr with
  | some e => some e
  | none =>
  match env.statErr with
  | some e => some e
  | none =>
  match env.patternErr with
  | some e => some e
  | none =>
  match env.qualityErr with
  | some e => some e
  | none => env.commitErr

/-- C1 (amended): for every run, the `current_step_num` values carried by
the emitted `insight_progress` events are monotonically non-decreasing in
emission order (not strictly increasing: step 3 is emitted twice), and every
value is at most the `total_steps` value (always 6) carried in the same
event. -/
theorem c1_progress_monotone (env : RunEnv) :
    List.Chain' (fun a b : Nat × Nat => a.1 ≤ b.1)
      (progressSteps (generate_insights_with_progress env).trace)
    ∧ ∀ p ∈ progressSteps (generate_insights_with_progress env).trace,
        p.1 ≤ p.2 ∧ p.2 = 6 := by
  obtain ⟨record, df, corrM, pe, oe, se, pte, qe, ce, fcf⟩ := env
  cases record <;> cases pe <;> cases oe <;> cases se <;> cases pte <;>
    cases qe <;> cases ce <;>
    simp [generate_insights_with_progress, failTail, progressSteps,
      List.chain'_cons]

/-- A fully healthy environment over the empty dataframe. -/
def envOK : RunEnv :=
  { record := some ⟨"processing", none⟩, df := ⟨[], 0⟩, corrM := fun _ _ => 0,
    parseErr := none, overviewErr := none, statErr := none, patternErr := none,
    qualityErr := none, commitErr := none, failCommitFails := false }

/-- Counterexample to C1 as stated: a successful run emits the step-3
progress event twice (before and after the overview stage), so the sequence
of `current_step_num` values is not strictly increasing. -/
theorem c1_progress_strict_counterexample :
    (progressSteps (generate_insights_with_progress envOK).trace).map Prod.fst
      = [1, 2, 3, 3, 4, 5, 6]
    ∧ ¬ List.Chain' (fun a b : Nat × Nat => a.1 < b.1)
        (progressSteps (generate_insights_with_progress envOK).trace) := by
  constructor
  · decide
  · simp [envOK, generate_insights_with_progress, progressSteps,
      List.chain'_cons]

/-- Witness for C1 (amended) at the healthy environment. -/
theorem c1_progress_monotone_witness :
    ((1, 6) : Nat × Nat).1 ≤ ((1, 6) : Nat × Nat).2
    ∧ ((1, 6) : Nat × Nat).2 = 6 :=
  (c1_progress_monotone envOK).2 (1, 6) (by decide)

/-- The run writes the `insights` column only in the success commit: every
other outcome leaves the persisted `insights` value untouched. -/
theorem run_db_insights (env : RunEnv) (rec0 : RecordState)
    (h0 : env.record = some rec0) :
    ∀ r', (generate_insights_with_progress env).db = some r' →
      r'.processing_status ≠ "completed" → r'.insights = rec0.insights := by
  obtain ⟨record, df, corrM, pe, oe, se, pte, qe, ce, fcf⟩ := env
  cases record with
  | none => simp at h0
  | some r0 =>
    have hr : r0 = rec0 := by simpa using h0
    subst hr
    cases pe <;> cases oe <;> cases se <;> cases pte <;> cases qe <;>
      cases ce <;> cases fcf <;>
      simp only [generate_insights_with_progress, failTail] <;>
      (intro r' hdb hne;
       have h := (Option.some.inj hdb).symm;
       subst h;
       first
       | rfl
       | exact absurd rfl hne)

/-- C2 (amended): the run writes the `insights` field only in the single
commit that also sets status `completed`; any other outcome leaves the
persisted `insights` value exactly as it was before the run.  Hence when the
record's `insights` field is unset at the start of the run, any post-run
status other than `completed` implies `insights` is still unset.  (As stated
the claim fails when the record already carries insights from an earlier
completed run: a failed re-run flips the status to `failed` without clearing
them — see the counterexample.) -/
theorem c2_insights_only_with_completed (env : RunEnv) (rec0 : RecordState)
    (h0 : env.record = some rec0) :
    (∀ r', (generate_insights_with_progress env).db = some r' →
        r'.processing_status ≠ "completed" → r'.insights = rec0.insights)
    ∧ (rec0.insights = none →
        ∀ r', (generate_insights_with_progress env).db = some r' →
          r'.processing_status ≠ "completed" → r'.insights = none) :=
  ⟨run_db_insights env rec0 h0,
   fun hnone r' hdb hne => (run_db_insights env rec0 h0 r' hdb hne).trans hnone⟩

/-- An insight persisted by an earlier completed run. -/
def iOld : Insight := ⟨"old", 1, "overview", [], []⟩

/-- A re-run of a previously completed record (its `insights` column still
holds the earlier results, the trigger reset the status to `processing`)
that fails at the parse step. -/
def envPrevCompleted : RunEnv :=
  { record := some ⟨"processing", some [iOld]⟩, df := ⟨[], 0⟩,
    corrM := fun _ _ => 0, parseErr := some "file missing",
    overviewErr := none, statErr := none, patternErr := none,
    qualityErr := none, commitErr := none, failCommitFails := false }

/-- Counterexample to C2 as stated: the failed re-run persists status
`failed` while the non-empty `insights` of the earlier completed run remain
persisted. -/
theorem c2_insights_counterexample :
    (generate_insights_with_progress envPrevCompleted).db
      = some ⟨"failed", some [iOld]⟩
    ∧ ("failed" : String) ≠ "completed"
    ∧ (some [iOld] : Option (List Insight)) ≠ none :=
  ⟨rfl, by decide, by simp⟩

/-- A fresh record (no insights yet) whose run fails at the parse step. -/
def envFreshFail : RunEnv :=
  { record := some ⟨"processing", none⟩, df := ⟨[], 0⟩,
    corrM := fun _ _ => 0, parseErr := some "boom",
    overviewErr := none, statErr := none, patternErr := none,
    qualityErr := none, commitErr := none, failCommitFails := false }

/-- Witness for C2 (amended): a failing run on a fresh record leaves the
`insights` field unset. -/
theorem c2_insights_only_with_completed_witness :
    (⟨"failed", none⟩ : RecordState).insights = none :=
  (c2_insights_only_with_completed envFreshFail ⟨"processing", none⟩ rfl).2
    rfl ⟨"failed", none⟩ rfl (by decide)

theorem terminalWrites_append (a b : List RunAction) :
    terminalWrites (a ++ b) = terminalWrites a ++ terminalWrites b :=
  List.filterMap_append a b _

/-- The terminal-persistence discipline of one run: at most one terminal
status reaches the database, and the trace ends with the terminal commit
attempt immediately followed by the corresponding terminal broadcast (so
any successful terminal write precedes its broadcast, and nothing else is
committed). -/
def TerminalSpec (res : RunResult) : Prop :=
  (terminalWrites res.trace).length ≤ 1
  ∧ ∃ pre r ok e,
      res.trace = pre ++ [RunAction.commit r ok, RunAction.broadcast e]
      ∧ terminalWrites pre = []
      ∧ (r.processing_status = "completed" ∨ r.processing_status = "failed")
      ∧ (r.processing_status = "completed" → ∃ n, e = Event.insightsComplete n)
      ∧ (r.processing_status = "failed" →
          ∃ m, e = Event.statusUpdate "failed" m 0)

theorem failTail_spec (env : RunEnv) (rec0 recSession : RecordState)
    (t : List RunAction) (cause : String) (poisoned : Bool)
    (ht : terminalWrites t = []) :
    TerminalSpec (failTail env rec0 recSession t cause poisoned) := by
  have htr : (failTail env rec0 recSession t cause poisoned).trace
      = t ++ [RunAction.commit { recSession with processing_status := "failed" }
                (!poisoned && !env.failCommitFails),
              RunAction.broadcast (Event.statusUpdate "failed"
                ("Analysis failed: " ++ cause) 0)] := rfl
  constructor
  · rw [htr, terminalWrites_append, ht, List.nil_append]
    cases h : (!poisoned && !env.failCommitFails)
    · exact Nat.zero_le 1
    · exact Nat.le_refl 1
  · exact ⟨t, { recSession with processing_status := "failed" },
      !poisoned && !env.failCommitFails,
      Event.statusUpdate "failed" ("Analysis failed: " ++ cause) 0,
      htr, ht, Or.inr rfl,
      fun h => absurd h (show ¬("failed" : String) = "completed" by decide),
      fun _ => ⟨_, rfl⟩⟩

theorem failTail_len (env : RunEnv) (rec0 recSession : RecordState)
    (t : List RunAction) (cause : String) (poisoned : Bool)
    (ht : terminalWrites t = []) (hp : poisoned = false)
    (hf : env.failCommitFails = false) :
    (terminalWrites (failTail env rec0 recSession t cause poisoned).trace).length
      = 1 := by
  subst hp
  have htr : (failTail env rec0 recSession t cause false).trace
      = t ++ [RunAction.commit { recSession with processing_status := "failed" }
                (!false && !env.failCommitFails),
              RunAction.broadcast (Event.statusUpdate "failed"
                ("Analysis failed: " ++ cause) 0)] := rfl
  rw [htr, terminalWrites_append, ht, List.nil_append, hf]
  rfl

theorem success_terminal (res : RunResult) (t : List RunAction)
    (final : List Insight)
    (htr : res.trace = t ++ [RunAction.commit ⟨"completed", some final⟩ true,
        RunAction.broadcast (Event.insightsComplete final.length)])
    (ht : terminalWrites t = []) :
    TerminalSpec res ∧ (terminalWrites res.trace).length = 1 := by
  have hlen : (terminalWrites res.trace).length = 1 := by
    rw [htr, terminalWrites_append, ht, List.nil_append]
    rfl
  refine ⟨⟨le_of_eq hlen, t, ⟨"completed", some final⟩, true,
    Event.insightsComplete final.length, htr, ht, Or.inl rfl,
    fun _ => ⟨final.length, rfl⟩,
    fun h => absurd h (show ¬("completed" : String) = "failed" by decide)⟩, hlen⟩

/-- C3 (amended): in every run on an existing record, at most one terminal
status is persisted; the trace always ends with the terminal commit attempt
immediately followed by the matching terminal broadcast (write before
broadcast); and when persistence is healthy (the success commit does not
fail and the failure-path commit does not fail) exactly one terminal status
is persisted.  (As stated the claim fails when the commit raises: then no
terminal status is persisted at all even though the failure broadcast is
still sent — see the counterexample.) -/
theorem c3_terminal_write (env : RunEnv) (rec0 : RecordState)
    (h0 : env.record = some rec0) :
    TerminalSpec (generate_insights_with_progress env)
    ∧ (env.commitErr = none → env.failCommitFails = false →
        (terminalWrites (generate_insights_with_progress env).trace).length
          = 1) := by
  obtain ⟨record, df, corrM, pe, oe, se, pte, qe, ce, fcf⟩ := env
  cases record with
  | none => simp at h0
  | some r0 =>
    cases pe <;> cases oe <;> cases se <;> cases pte <;> cases qe <;>
      cases ce <;>
      first
      | exact ⟨(success_terminal _ _ _ (by rfl) (by rfl)).1,
          fun _ _ => (success_terminal _ _ _ (by rfl) (by rfl)).2⟩
      | exact ⟨failTail_spec _ _ _ _ _ _ (by rfl),
          fun hc _ => Option.noConfusion hc⟩
      | exact ⟨failTail_spec _ _ _ _ _ _ (by rfl),
          fun _ hf => failTail_len _ _ _ _ _ _ (by rfl) rfl hf⟩

/-- A run whose success-path commit raises (the database write fails after
the stages succeed). -/
def envCommitFail : RunEnv :=
  { record := some ⟨"processing", none⟩, df := ⟨[], 0⟩, corrM := fun _ _ => 0,
    parseErr := none, overviewErr := none, statErr := none, patternErr := none,
    qualityErr := none, commitErr := some "db down", failCommitFails := true }

/-- Counterexample to C3 as stated: when the commit raises, no terminal
status is ever persisted (zero writes, not exactly one), while the failure
broadcast is still sent to subscribers. -/
theorem c3_terminal_write_counterexample :
    terminalWrites (generate_insights_with_progress envCommitFail).trace = []
    ∧ RunAction.broadcast (Event.statusUpdate "failed"
          "Analysis failed: db down" 0)
        ∈ (generate_insights_with_progress envCommitFail).trace := by
  refine ⟨rfl, ?_⟩
  simp [envCommitFail, generate_insights_with_progress, failTail]

/-- Witness for C3 (amended): a healthy run persists exactly one terminal
status. -/
theorem c3_terminal_write_witness :
    (terminalWrites (generate_insights_with_progress envOK).trace).length = 1 :=
  (c3_terminal_write envOK ⟨"processing", none⟩ rfl).2 rfl rfl

/-- C5: every failure arising inside the run — load/parse failure, a stage
raising, or the persistence commit failing — is caught rather than
propagated (the run is total and always yields a result): it returns the
empty insight list (no partial-insight salvage), attempts a best-effort
commit of status `failed` (whose own failure is swallowed), and broadcasts a
`failed` status update carrying the failure's text as its final action. -/
theorem c5_failures_caught (env : RunEnv) (rec0 : RecordState)
    (h0 : env.record = some rec0) :
    ∀ e, failureCause env = some e →
      (generate_insights_with_progress env).ret = []
      ∧ ∃ pre r ok,
          (generate_insights_with_progress env).trace
            = pre ++ [RunAction.commit r ok,
                RunAction.broadcast (Event.statusUpdate "failed"
                  ("Analysis failed: " ++ e) 0)]
          ∧ r.processing_status = "failed" := by
  obtain ⟨record, df, corrM, pe, oe, se, pte, qe, ce, fcf⟩ := env
  cases record with
  | none => simp at h0
  | some r0 =>
    cases pe <;> cases oe <;> cases se <;> cases pte <;> cases qe <;>
      cases ce <;>
      first
      | (intro e he; exact Option.noConfusion he)
      | (intro e he;
         have hee := Option.some.inj he;
         subst hee;
         exact ⟨rfl, _, _, _, rfl, rfl⟩)

/-- Witness for C5 at a parse failure on a fresh record. -/
theorem c5_failures_caught_witness :
    (generate_insights_with_progress envFreshFail).ret = []
    ∧ ∃ pre r ok,
        (generate_insights_with_progress envFreshFail).trace
          = pre ++ [RunAction.commit r ok,
              RunAction.broadcast (Event.statusUpdate "failed"
                ("Analysis failed: " ++ "boom") 0)]
        ∧ r.processing_status = "failed" :=
  c5_failures_caught envFreshFail ⟨"processing", none⟩ rfl "boom" rfl

/-- Witness for C4 at a concrete singleton list. -/
theorem c4_filter_sort_truncate_witness :
    settings.min_confidence_score ≤ iOld.confidence :=
  (c4_filter_sort_truncate [iOld]).2.2.1 iOld (by
    have h : selectInsights [iOld] = [iOld] := by
      norm_num [selectInsights, sortBy, insertBy, settings, iOld]
    rw [h]
    exact List.mem_singleton.mpr rfl)
